import Mathlib

/-!
# Mandelbrot explorer (`mandelbrot.cpp`): a shallow embedding

The program keeps its whole state in global variables and renders the image
with `NUM_THREADS` band workers.  The embedding below follows the source
function by function:

* `whileLoop` / `iterate`  : the inner escape-time `while` loop of
  `MandelbrotThreadProc`;
* `iterScale` / `pixelColor` : the colour mapping of `MandelbrotThreadProc`;
* `MandelbrotThreadProc`   : the band worker, returning the buffer writes it
  performs and the messages it posts;
* `planePoint`             : the pixel-to-plane map of `MandelbrotThreadProc`
  (`x0`, `y0` of a pixel);
* `RecreateBitmap`         : buffer (re)allocation and band partition;
* `wmMouseMove`, `wmMouseWheel` : the pan and zoom cases of `MainDlgProc`.

Conventions.  `double` arithmetic is taken as exact and modelled by `ℚ`.
C `int` values are modelled by `ℤ` without wrap-around: window dimensions,
iteration limits (slider range 2..2048) and palette indices keep every
intermediate value far below `2^31`.  C integer `/` and `%` truncate towards
zero and are modelled by `Int.tdiv` and `Int.tmod`.
-/

namespace Mandelbrot

/-! ## Constants and global state -/

/-- Number of worker threads, `#define NUM_THREADS 12`. -/
def NUM_THREADS : ℕ := 12

/-- Win32 `WM_USER`. -/
def WM_USER : ℤ := 0x0400

/-- Message id of the repaint request, `#define WM_REPAINT_MAIN WM_USER+1`. -/
def WM_REPAINT_MAIN : ℤ := WM_USER + 1

/-- Size in bytes of a C `int` on the target platform, `sizeof(int)`. -/
def sizeofInt : ℤ := 4

/-- Per-thread parameters, `struct ThreadParams` (the window handle is not
needed by any computation and is left out). -/
structure ThreadParams where
  id : ℤ
  startRow : ℤ
  rowCount : ℤ
deriving DecidableEq

/-- The global variables of the program.  `bmpBits` is the identity of the
heap block holding the pixels (`0` is `NULL`); `heapAllocs` counts the
`HeapAlloc` calls made for the pixel buffer and stands for the process heap,
which hands out a fresh block on every allocation. -/
structure Globals where
  bmpWidth : ℤ
  bmpHeight : ℤ
  bmpBits : ℕ
  bmpSizeAllocated : ℤ
  heapAllocs : ℕ
  colorPaletteSize : ℤ
  colorPalette : ℤ → ℤ
  xCenter : ℚ
  yCenter : ℚ
  xExtent : ℚ
  numIterations : ℤ
  prevMouseX : ℤ
  prevMouseY : ℤ
  isMouseDown : Bool

/-- One pass of the palette initialisation loop of `WinMain` for index `i`. -/
def paletteStep (pal : ℤ → ℤ) (i : ℕ) : ℤ → ℤ :=
  let colorLevel : ℕ := i * 4
  let pal1 := Function.update pal (i : ℤ) (((colorLevel <<< 16) ||| (255 - colorLevel) : ℕ) : ℤ)
  let pal2 := Function.update pal1 ((i : ℤ) + 64)
    ((((255 - colorLevel) <<< 16) ||| (colorLevel <<< 8) : ℕ) : ℤ)
  let pal3 := Function.update pal2 ((i : ℤ) + 128) ((0xFF00 ||| colorLevel : ℕ) : ℤ)
  Function.update pal3 ((i : ℤ) + 192) ((((255 - colorLevel) <<< 8) ||| 0xFF : ℕ) : ℤ)

/-- The colour palette built by `WinMain`: `for (int i = 0; i < 64; i++)`. -/
def initialPalette : ℤ → ℤ :=
  (List.range 64).foldl paletteStep (fun _ => 0)

/-- The global state right after the initialisers of the global variables and
the palette set-up of `WinMain`, before the first `RecreateBitmap`. -/
def initialGlobals : Globals :=
  { bmpWidth := 0, bmpHeight := 0, bmpBits := 0, bmpSizeAllocated := 0, heapAllocs := 0,
    colorPaletteSize := 256, colorPalette := initialPalette,
    xCenter := -1 / 2, yCenter := 0, xExtent := 3, numIterations := 256,
    prevMouseX := 0, prevMouseY := 0, isMouseDown := false }

/-! ## The escape-time loop of `MandelbrotThreadProc` -/

/-- The local variables `x, y, x2, y2, iteration` of the inner loop. -/
structure LoopState where
  x : ℚ
  y : ℚ
  x2 : ℚ
  y2 : ℚ
  iteration : ℤ
deriving DecidableEq

/-- State on loop entry: `x = y = x2 = y2 = 0.0; iteration = 0;`. -/
def loopInit : LoopState :=
  { x := 0, y := 0, x2 := 0, y2 := 0, iteration := 0 }

/-- The four assignments of the loop body followed by `++iteration`. -/
def loopBody (x0 y0 : ℚ) (s : LoopState) : LoopState :=
  let y := 2 * s.x * s.y + y0
  let x := s.x2 - s.y2 + x0
  { x := x, y := y, x2 := x * x, y2 := y * y, iteration := s.iteration + 1 }

/-- The loop `while (x2 + y2 < 4.0) { ...; if (++iteration > numIterations) break; }`
started in state `s`.  It is total: `numIterations + 1 - iteration` decreases. -/
def whileLoop (x0 y0 : ℚ) (numIterations : ℤ) (s : LoopState) : LoopState :=
  if s.x2 + s.y2 < 4 then
    if (loopBody x0 y0 s).iteration > numIterations then loopBody x0 y0 s
    else whileLoop x0 y0 numIterations (loopBody x0 y0 s)
  else s
termination_by (numIterations + 1 - s.iteration).toNat
decreasing_by
  simp only [loopBody] at *
  omega

/-- The escape-time evaluator: the value of `iteration` when the inner loop
is left, for the point `(x0, y0)` and `numIterations = limit`. -/
def iterate (x0 y0 : ℚ) (limit : ℤ) : ℤ :=
  (whileLoop x0 y0 limit loopInit).iteration

/-- The state of the loop variables after `k` executions of the loop body. -/
def orbit (x0 y0 : ℚ) : ℕ → LoopState
  | 0 => loopInit
  | k + 1 => loopBody x0 y0 (orbit x0 y0 k)

/-! ## Colour mapping of `MandelbrotThreadProc` -/

/-- The scale factor:
`iterScale = 1; if (numIterations < colorPaletteSize) iterScale = colorPaletteSize / numIterations;`. -/
def iterScale (colorPaletteSize numIterations : ℤ) : ℤ :=
  if numIterations < colorPaletteSize then Int.tdiv colorPaletteSize numIterations else 1

/-- The pixel value written for an iteration count:
`iteration >= numIterations ? 0 : colorPalette[(iteration * iterScale) % colorPaletteSize]`. -/
def pixelColor (colorPalette : ℤ → ℤ) (colorPaletteSize numIterations iteration : ℤ) : ℤ :=
  if iteration ≥ numIterations then 0
  else colorPalette (Int.tmod (iteration * iterScale colorPaletteSize numIterations) colorPaletteSize)

/-! ## The band worker `MandelbrotThreadProc` -/

/-- What one run of a band worker does: the writes `bmpBits[offset] = value`
in program order, whether the row loop was left through the
`if (threadTerminateFlag) break;` statement, and the messages posted to the
window. -/
structure WorkerRun where
  writes : List (ℤ × ℤ)
  aborted : Bool
  posted : List ℤ
deriving DecidableEq

/-- The renderer's map from pixels to the fractal plane: the point `(x0, y0)`
that `MandelbrotThreadProc` iterates for column `px` of buffer row `py`,
`x0 = xmin + px * xscale` and `y0 = ymin + py * yscale`. -/
def planePoint (g : Globals) (px py : ℤ) : ℚ × ℚ :=
  let viewWidth := g.bmpWidth
  let viewHeight := g.bmpHeight
  let xmin : ℚ := g.xCenter - g.xExtent / 2
  let xmax : ℚ := xmin + g.xExtent
  let aspect : ℚ := (viewWidth : ℚ) / (viewHeight : ℚ)
  let ymin : ℚ := g.yCenter - g.xExtent / aspect / 2
  let ymax : ℚ := ymin + g.xExtent / aspect
  let xscale : ℚ := (xmax - xmin) / (viewWidth : ℚ)
  let yscale : ℚ := (ymax - ymin) / (viewHeight : ℚ)
  (xmin + (px : ℚ) * xscale, ymin + (py : ℚ) * yscale)

/-- The body of the column loop for pixel `(px, py)`: the flat offset
`yptr + px` and the value stored there. -/
def pixelWrite (g : Globals) (py px : ℤ) : ℤ × ℤ :=
  let viewWidth := g.bmpWidth
  let viewHeight := g.bmpHeight
  let xmin : ℚ := g.xCenter - g.xExtent / 2
  let xmax : ℚ := xmin + g.xExtent
  let aspect : ℚ := (viewWidth : ℚ) / (viewHeight : ℚ)
  let ymin : ℚ := g.yCenter - g.xExtent / aspect / 2
  let ymax : ℚ := ymin + g.xExtent / aspect
  let xscale : ℚ := (xmax - xmin) / (viewWidth : ℚ)
  let yscale : ℚ := (ymax - ymin) / (viewHeight : ℚ)
  let y0 : ℚ := ymin + (py : ℚ) * yscale
  let yptr : ℤ := py * viewWidth
  let x0 : ℚ := xmin + (px : ℚ) * xscale
  let iteration := iterate x0 y0 g.numIterations
  (yptr + px, pixelColor g.colorPalette g.colorPaletteSize g.numIterations iteration)

/-- The column loop `for (px = startX; px < maxX; px++)` of row `py`, with
`startX = 0` and `maxX = startX + bmpWidth`. -/
def rowWrites (g : Globals) (py : ℤ) : List (ℤ × ℤ) :=
  (List.range (0 + g.bmpWidth).toNat).map (fun (px : ℕ) => pixelWrite g py (px : ℤ))

/-- The row loop `for (py = startY; py < maxY; py++)` with `n` rows left to
do, currently at row `py`.  `flag py` is the value of `threadTerminateFlag`
read at the end of row `py`.  Returns the writes and whether the loop was left
through `break`. -/
def rowLoop (g : Globals) (flag : ℤ → Bool) : ℕ → ℤ → List (ℤ × ℤ) × Bool
  | 0, _ => ([], false)
  | n + 1, py =>
    if flag py then (rowWrites g py, true)
    else ((rowWrites g py) ++ (rowLoop g flag n (py + 1)).1, (rowLoop g flag n (py + 1)).2)

/-- The thread function: row loop over `[startRow, startRow + rowCount)`,
then `PostMessage(params->hWnd, WM_REPAINT_MAIN, NULL, NULL)`. -/
def MandelbrotThreadProc (g : Globals) (params : ThreadParams) (flag : ℤ → Bool) : WorkerRun :=
  let startY := params.startRow
  let maxY := startY + params.rowCount
  let r := rowLoop g flag (maxY - startY).toNat startY
  { writes := r.1, aborted := r.2, posted := [WM_REPAINT_MAIN] }

/-! ## `RecreateBitmap` -/

/-- The reallocation step of `RecreateBitmap`, after `bmpWidth` and
`bmpHeight` have been set: the buffer is replaced by a fresh block of twice
the required size when `bmpSizeRequired > bmpSizeAllocated`. -/
def reallocBuffer (g : Globals) : Globals :=
  let bmpSizeRequired := g.bmpWidth * g.bmpHeight * sizeofInt
  if bmpSizeRequired > g.bmpSizeAllocated then
    { g with bmpSizeAllocated := 2 * bmpSizeRequired,
             heapAllocs := g.heapAllocs + 1,
             bmpBits := g.heapAllocs + 1 }
  else g

/-- The thread set-up loop `for (int i = 0; i < NUM_THREADS; i++)` with `n`
threads left to start: thread `i` gets `startRow = row`, `rowCount = rowInc`,
and `row += rowInc`. -/
def bandLoop (rowInc : ℤ) : ℕ → ℤ → ℤ → List ThreadParams
  | 0, _, _ => []
  | n + 1, i, row =>
    { id := i, startRow := row, rowCount := rowInc } :: bandLoop rowInc n (i + 1) (row + rowInc)

/-- The parameters handed to the worker threads for an image of `bmpHeight`
rows: `row = 0, rowInc = bmpHeight / NUM_THREADS`. -/
def bandParams (bmpHeight : ℤ) : List ThreadParams :=
  bandLoop (Int.tdiv bmpHeight (NUM_THREADS : ℤ)) NUM_THREADS 0 0

/-- The function `RecreateBitmap` for a window whose client rectangle is
`rectRight` by `rectBottom`: the new global state and the parameters of the
worker threads it starts.  Stopping and joining the previous workers and
filling in `bmpInfo` change none of the variables modelled here. -/
def RecreateBitmap (g : Globals) (rectRight rectBottom : ℤ) : Globals × List ThreadParams :=
  let g1 := { g with bmpWidth := rectRight, bmpHeight := rectBottom }
  let g2 := reallocBuffer g1
  (g2, bandParams g2.bmpHeight)

/-- Whether `RecreateBitmap` called in state `g` allocates a new buffer. -/
def reallocates (g : Globals) (rectRight rectBottom : ℤ) : Prop :=
  (RecreateBitmap g rectRight rectBottom).1.heapAllocs ≠ g.heapAllocs

/-! ## `MainDlgProc`: pan and zoom -/

/-- The viewport update of `case WM_MOUSEMOVE` for the pointer position
`(x, y)`, before the call of `RecreateBitmap`. -/
def panView (g : Globals) (x y : ℤ) : Globals :=
  if g.isMouseDown then
    let xCenter := g.xCenter + g.xExtent / (g.bmpWidth : ℚ) * ((g.prevMouseX - x : ℤ) : ℚ)
    let aspect : ℚ := (g.bmpWidth : ℚ) / (g.bmpHeight : ℚ)
    let yCenter := g.yCenter - g.xExtent / aspect / (g.bmpHeight : ℚ) * ((g.prevMouseY - y : ℤ) : ℚ)
    { g with xCenter := xCenter, yCenter := yCenter, prevMouseX := x, prevMouseY := y }
  else g

/-- The handler `case WM_MOUSEMOVE` of `MainDlgProc`; the client rectangle is
the one `RecreateBitmap` reads. -/
def wmMouseMove (g : Globals) (x y rectRight rectBottom : ℤ) : Globals :=
  if g.isMouseDown then (RecreateBitmap (panView g x y) rectRight rectBottom).1 else g

/-- The zoom factor chosen by `case WM_MOUSEWHEEL`:
`delta > 0 ? 0.6666666 : 1.5`. -/
def wheelFactor (delta : ℤ) : ℚ :=
  if delta > 0 then 6666666 / 10000000 else 3 / 2

/-- The fractal-plane point `(xpos, ypos)` that `case WM_MOUSEWHEEL` computes
for the client pixel `(px, py)` from `xCenter`, `yCenter`, `xExtent`. -/
def pivotPoint (g : Globals) (px py : ℤ) : ℚ × ℚ :=
  let aspect : ℚ := (g.bmpWidth : ℚ) / (g.bmpHeight : ℚ)
  let xmin : ℚ := g.xCenter - g.xExtent / 2
  let xpos : ℚ := xmin + ((px : ℚ) * g.xExtent / (g.bmpWidth : ℚ))
  let ymin : ℚ := g.yCenter - g.xExtent / aspect / 2
  let ypos : ℚ := ymin + (((g.bmpHeight - py : ℤ) : ℚ) * g.xExtent / aspect / (g.bmpHeight : ℚ))
  (xpos, ypos)

/-- The viewport update of `case WM_MOUSEWHEEL` for the pivot pixel
`(px, py)` and zoom factor `factor`, before the call of `RecreateBitmap`. -/
def zoomView (g : Globals) (px py : ℤ) (factor : ℚ) : Globals :=
  let aspect : ℚ := (g.bmpWidth : ℚ) / (g.bmpHeight : ℚ)
  let xmin : ℚ := g.xCenter - g.xExtent / 2
  let xmax : ℚ := xmin + g.xExtent
  let xpos : ℚ := (pivotPoint g px py).1
  let ymin : ℚ := g.yCenter - g.xExtent / aspect / 2
  let ypos : ℚ := (pivotPoint g px py).2
  let xmin1 : ℚ := xpos - (xpos - xmin) * factor
  let xmax1 : ℚ := xpos + (xmax - xpos) * factor
  let ymin1 : ℚ := ypos - (ypos - ymin) * factor
  let xExtent := xmax1 - xmin1
  { g with xExtent := xExtent,
           xCenter := xmin1 + xExtent / 2,
           yCenter := ymin1 + xExtent / aspect / 2 }

/-- The handler `case WM_MOUSEWHEEL` of `MainDlgProc` for the client pixel
`(px, py)` and wheel movement `delta`. -/
def wmMouseWheel (g : Globals) (px py delta rectRight rectBottom : ℤ) : Globals :=
  (RecreateBitmap (zoomView g px py (wheelFactor delta)) rectRight rectBottom).1

/-! ## Facts about the escape-time loop -/

/-- After `k` rounds the counter `iteration` holds `k`. -/
theorem orbit_iteration (x0 y0 : ℚ) (k : ℕ) : (orbit x0 y0 k).iteration = (k : ℤ) := by
  induction k with
  | zero => rfl
  | succ k ih => simp [orbit, loopBody, ih]

/-- A state outside the escape radius leaves the loop at once. -/
theorem whileLoop_of_escaped (x0 y0 : ℚ) (L : ℤ) (s : LoopState)
    (h : 4 ≤ s.x2 + s.y2) : whileLoop x0 y0 L s = s := by
  rw [whileLoop, if_neg (not_lt.mpr h)]

/-- Inside the radius and below the limit the loop goes round once more. -/
theorem whileLoop_orbit_step (x0 y0 : ℚ) (L : ℤ) (k : ℕ)
    (h : (orbit x0 y0 k).x2 + (orbit x0 y0 k).y2 < 4) (hk : (k : ℤ) + 1 ≤ L) :
    whileLoop x0 y0 L (orbit x0 y0 k) = whileLoop x0 y0 L (orbit x0 y0 (k + 1)) := by
  have hit : (loopBody x0 y0 (orbit x0 y0 k)).iteration = (k : ℤ) + 1 := by
    simp [loopBody, orbit_iteration]
  rw [whileLoop, if_pos h, if_neg (by rw [hit]; omega)]
  rfl

/-- Inside the radius with the limit used up the loop is left through `break`. -/
theorem whileLoop_orbit_break (x0 y0 : ℚ) (L : ℤ) (k : ℕ)
    (h : (orbit x0 y0 k).x2 + (orbit x0 y0 k).y2 < 4) (hk : L < (k : ℤ) + 1) :
    whileLoop x0 y0 L (orbit x0 y0 k) = orbit x0 y0 (k + 1) := by
  have hit : (loopBody x0 y0 (orbit x0 y0 k)).iteration = (k : ℤ) + 1 := by
    simp [loopBody, orbit_iteration]
  rw [whileLoop, if_pos h, if_pos (by rw [hit]; omega)]
  rfl

/-- As long as the orbit stays inside the radius and below the limit, the
loop started at `loopInit` is the loop started at the `k`-th orbit state. -/
theorem whileLoop_init_eq (x0 y0 : ℚ) (L : ℤ) (k : ℕ)
    (hin : ∀ j, j < k → (orbit x0 y0 j).x2 + (orbit x0 y0 j).y2 < 4) (hk : (k : ℤ) ≤ L) :
    whileLoop x0 y0 L loopInit = whileLoop x0 y0 L (orbit x0 y0 k) := by
  induction k with
  | zero => rfl
  | succ k ih =>
    have hk1 : ((k : ℤ) + 1) ≤ L := by push_cast at hk; exact hk
    rw [ih (fun j hj => hin j (Nat.lt_succ_of_lt hj)) (by omega)]
    exact whileLoop_orbit_step x0 y0 L k (hin k (Nat.lt_succ_self k)) hk1

/-- If the orbit first leaves the radius at step `k ≤ L`, the count is `k`. -/
theorem iterate_of_first_escape (x0 y0 : ℚ) (L : ℤ) (k : ℕ)
    (hin : ∀ j, j < k → (orbit x0 y0 j).x2 + (orbit x0 y0 j).y2 < 4)
    (hout : 4 ≤ (orbit x0 y0 k).x2 + (orbit x0 y0 k).y2) (hk : (k : ℤ) ≤ L) :
    iterate x0 y0 L = (k : ℤ) := by
  unfold iterate
  rw [whileLoop_init_eq x0 y0 L k hin hk, whileLoop_of_escaped x0 y0 L _ hout, orbit_iteration]

/-- If the orbit stays inside the radius for the steps `0..n`, the count for
limit `n` is `n + 1`. -/
theorem iterate_of_no_escape (x0 y0 : ℚ) (n : ℕ)
    (hin : ∀ j, j ≤ n → (orbit x0 y0 j).x2 + (orbit x0 y0 j).y2 < 4) :
    iterate x0 y0 (n : ℤ) = (n : ℤ) + 1 := by
  unfold iterate
  rw [whileLoop_init_eq x0 y0 n n (fun j hj => hin j (Nat.le_of_lt hj)) le_rfl,
    whileLoop_orbit_break x0 y0 n n (hin n le_rfl) (by omega), orbit_iteration]
  push_cast; rfl

/-- If the orbit stays inside the radius for the steps `0..m` and `m ≤ n`,
the count for limit `n` exceeds `m`. -/
theorem lt_iterate_of_inside (x0 y0 : ℚ) (n m : ℕ) (hm : m ≤ n)
    (hin : ∀ j, j ≤ m → (orbit x0 y0 j).x2 + (orbit x0 y0 j).y2 < 4) :
    (m : ℤ) < iterate x0 y0 (n : ℤ) := by
  by_cases hall : ∀ j, j ≤ n → (orbit x0 y0 j).x2 + (orbit x0 y0 j).y2 < 4
  · rw [iterate_of_no_escape x0 y0 n hall]; omega
  · push_neg at hall
    have hex : ∃ j, 4 ≤ (orbit x0 y0 j).x2 + (orbit x0 y0 j).y2 ∧ j ≤ n := by
      obtain ⟨j, hj, h4⟩ := hall
      exact ⟨j, h4, hj⟩
    classical
    have hspec := Nat.find_spec hex
    have hmin : ∀ j, j < Nat.find hex → (orbit x0 y0 j).x2 + (orbit x0 y0 j).y2 < 4 := by
      intro j hj
      by_contra hc
      exact Nat.find_min hex hj ⟨not_lt.mp hc, by have := hspec.2; omega⟩
    rw [iterate_of_first_escape x0 y0 n (Nat.find hex) hmin hspec.1 (by exact_mod_cast hspec.2)]
    have : m < Nat.find hex := by
      by_contra hc
      exact absurd (hin _ (not_lt.mp hc)) (not_lt.mpr hspec.1)
    exact_mod_cast this

/-- The orbit of the origin stays at the origin. -/
theorem orbit_origin (k : ℕ) :
    orbit 0 0 k = { x := 0, y := 0, x2 := 0, y2 := 0, iteration := (k : ℤ) } := by
  induction k with
  | zero => rfl
  | succ k ih => simp [orbit, loopBody, ih]

/-- A point outside the circle of radius 2 is counted once: the first test of
the loop sees `x2 + y2 = 0`, the body runs, and the second test fails. -/
theorem iterate_outside_eq_one (x0 y0 : ℚ) (L : ℤ) (hL : 1 ≤ L) (h : 4 ≤ x0 ^ 2 + y0 ^ 2) :
    iterate x0 y0 L = 1 := by
  have h1 : 4 ≤ (orbit x0 y0 1).x2 + (orbit x0 y0 1).y2 := by
    simp only [orbit, loopBody, loopInit]
    nlinarith [h]
  have := iterate_of_first_escape x0 y0 L 1
    (by intro j hj; interval_cases j; simp [orbit, loopInit]) h1 (by simpa using hL)
  simpa using this

/-! ## Claims about the escape-time evaluator -/

/-- C1 (counterexample): for the point `(3, 0)`, which has `x0² + y0² = 9 > 4`, and limit `2`
the loop produces the count `1`, not `0`. -/
theorem C1_counterexample :
    (3 : ℚ) ^ 2 + (0 : ℚ) ^ 2 > 4 ∧ (2 : ℤ) ≤ 2 ∧ iterate 3 0 2 = 1 ∧ iterate 3 0 2 ≠ 0 := by
  have h : iterate 3 0 2 = 1 := iterate_outside_eq_one 3 0 2 (by norm_num) (by norm_num)
  refine ⟨by norm_num, le_refl _, h, ?_⟩
  rw [h]; norm_num

/-- C1 (amended): for every limit `≥ 2` and every point with `x0² + y0² > 4` the iteration
count produced by the inner loop is `1`. -/
theorem C1_iterate_outside (x0 y0 : ℚ) (limit : ℤ) (hlimit : 2 ≤ limit)
    (hout : x0 ^ 2 + y0 ^ 2 > 4) : iterate x0 y0 limit = 1 :=
  iterate_outside_eq_one x0 y0 limit (by omega) (le_of_lt hout)

/-- Witness of C1 (amended): the point `(0, -5/2)` with limit `256`. -/
theorem C1_iterate_outside_witness :
    (2 : ℤ) ≤ 256 ∧ (0 : ℚ) ^ 2 + (-5 / 2 : ℚ) ^ 2 > 4 ∧ iterate 0 (-5 / 2) 256 = 1 :=
  ⟨by norm_num, by norm_num, C1_iterate_outside 0 (-5 / 2) 256 (by norm_num) (by norm_num)⟩

/-- C2 (counterexample): for the origin and limit `2` the loop produces the count `3`, which
is not `2` and exceeds the limit. -/
theorem C2_counterexample :
    (2 : ℤ) ≤ 2 ∧ iterate 0 0 2 = 3 ∧ iterate 0 0 2 ≠ 2 ∧ ¬ (iterate 0 0 2 ≤ 2) := by
  have h : iterate 0 0 2 = 3 := by
    have := iterate_of_no_escape 0 0 2 (by intro j _; rw [orbit_origin]; norm_num)
    simpa using this
  refine ⟨le_refl _, h, ?_, ?_⟩ <;> rw [h] <;> norm_num

/-- C2 (amended): for every limit `≥ 2`, the iteration count produced for the origin is
exactly `limit + 1`. -/
theorem C2_iterate_origin (limit : ℤ) (hlimit : 2 ≤ limit) : iterate 0 0 limit = limit + 1 := by
  lift limit to ℕ using (by omega)
  exact iterate_of_no_escape 0 0 limit (by intro j _; rw [orbit_origin]; norm_num)

/-- Witness of C2 (amended): limit `256`. -/
theorem C2_iterate_origin_witness : (2 : ℤ) ≤ 256 ∧ iterate 0 0 256 = 256 + 1 :=
  ⟨by norm_num, C2_iterate_origin 256 (by norm_num)⟩

/-- C3: for every point and all limits `2 ≤ L ≤ L'`, the count for `L` is at most the count
for `L'`; and if the orbit leaves the escape radius (`x² + y² ≥ 4`) within the first `L`
steps, both limits give the same count. -/
theorem C3_iterate_mono (x0 y0 : ℚ) (L L' : ℤ) (hL : 2 ≤ L) (hLL : L ≤ L') :
    iterate x0 y0 L ≤ iterate x0 y0 L' ∧
    ((∃ n : ℕ, (n : ℤ) ≤ L ∧ 4 ≤ (orbit x0 y0 n).x2 + (orbit x0 y0 n).y2) →
      iterate x0 y0 L' = iterate x0 y0 L) := by
  lift L to ℕ using (by omega)
  lift L' to ℕ using (by omega)
  have hLL' : L ≤ L' := by exact_mod_cast hLL
  classical
  by_cases hex : ∃ n : ℕ, 4 ≤ (orbit x0 y0 n).x2 + (orbit x0 y0 n).y2 ∧ n ≤ L
  · have hspec := Nat.find_spec hex
    have hmin : ∀ j, j < Nat.find hex → (orbit x0 y0 j).x2 + (orbit x0 y0 j).y2 < 4 := by
      intro j hj
      by_contra hc
      exact Nat.find_min hex hj ⟨not_lt.mp hc, by have := hspec.2; omega⟩
    have e1 := iterate_of_first_escape x0 y0 L (Nat.find hex) hmin hspec.1
      (by exact_mod_cast hspec.2)
    have e2 := iterate_of_first_escape x0 y0 L' (Nat.find hex) hmin hspec.1
      (by exact_mod_cast le_trans hspec.2 hLL')
    rw [e1, e2]
    exact ⟨le_refl _, fun _ => rfl⟩
  · have hin : ∀ j, j ≤ L → (orbit x0 y0 j).x2 + (orbit x0 y0 j).y2 < 4 := by
      intro j hj
      by_contra hc
      exact hex ⟨j, not_lt.mp hc, hj⟩
    refine ⟨?_, ?_⟩
    · rw [iterate_of_no_escape x0 y0 L hin]
      have := lt_iterate_of_inside x0 y0 L' L hLL' hin
      omega
    · rintro ⟨n, hn, h4⟩
      exact absurd ⟨n, h4, by exact_mod_cast hn⟩ hex

/-- Witness of C3: the point `(1, 0)`, whose orbit `0, 1, 2` reaches `x² = 4` at step `2`,
with limits `2` and `3`. -/
theorem C3_iterate_mono_witness :
    (2 : ℤ) ≤ 2 ∧ (2 : ℤ) ≤ 3 ∧ iterate 1 0 2 ≤ iterate 1 0 3 ∧ iterate 1 0 3 = iterate 1 0 2 :=
  ⟨by norm_num, by norm_num, (C3_iterate_mono 1 0 2 3 (by norm_num) (by norm_num)).1,
    (C3_iterate_mono 1 0 2 3 (by norm_num) (by norm_num)).2
      ⟨2, by norm_num, by norm_num [orbit, loopBody, loopInit]⟩⟩

/-- For limits `≥ 2` and a palette of 256 entries the scale is `max 1 (256 / limit)`. -/
theorem iterScale_eq_max (limit : ℤ) (hlimit : 2 ≤ limit) :
    iterScale 256 limit = max 1 (256 / limit) := by
  unfold iterScale
  by_cases h : limit < 256
  · rw [if_pos h, Int.tdiv_eq_ediv (by norm_num) (by omega)]
    have : 1 ≤ 256 / limit := Int.le_ediv_of_mul_le (by omega) (by omega)
    rw [max_eq_right this]
  · rw [if_neg h]
    have : 256 / limit ≤ 1 := by
      have h1 : 256 / limit < 2 := Int.ediv_lt_of_lt_mul (by omega) (by omega)
      omega
    rw [max_eq_left this]

/-- C4: with `colorPaletteSize = 256`, for every limit `≥ 2` and count `n ≥ 0` the pixel value
is `0` when `n ≥ limit` and `palette[(n * scale) mod 256]` otherwise, where
`scale = max 1 (256 / limit)`; the scale is `1` for limit `256` and `4` for limit `64`, and
`n = 10` with limit `64` selects `palette[40]`. -/
theorem C4_color_mapping (palette : ℤ → ℤ) (limit n : ℤ) (hlimit : 2 ≤ limit) (hn : 0 ≤ n) :
    pixelColor palette 256 limit n
        = (if n ≥ limit then 0 else palette ((n * max 1 (256 / limit)) % 256)) ∧
      iterScale 256 limit = max 1 (256 / limit) ∧
      iterScale 256 256 = 1 ∧ iterScale 256 64 = 4 ∧
      pixelColor palette 256 64 10 = palette 40 := by
  have hs := iterScale_eq_max limit hlimit
  refine ⟨?_, hs, by decide, by decide, ?_⟩
  · unfold pixelColor
    rw [hs]
    by_cases h : n ≥ limit
    · rw [if_pos h, if_pos h]
    · rw [if_neg h, if_neg h, Int.tmod_eq_emod (by positivity) (by norm_num)]
  · have e : Int.tmod (10 * iterScale 256 64) 256 = 40 := by decide
    unfold pixelColor
    rw [if_neg (by decide), e]

/-- Witness of C4: limit `64` and count `10` with the palette built by `WinMain`. -/
theorem C4_color_mapping_witness :
    (2 : ℤ) ≤ 64 ∧ (0 : ℤ) ≤ 10 ∧
      pixelColor initialPalette 256 64 10
        = (if (10 : ℤ) ≥ 64 then 0 else initialPalette ((10 * max 1 (256 / 64)) % 256)) :=
  ⟨by norm_num, by norm_num, (C4_color_mapping initialPalette 64 10 (by norm_num) (by norm_num)).1⟩

/-- C5 (code at the failing input): for a window of height `500` every band gets
`500 / 12 = 41` rows, the twelve bands are contiguous from row `0`, their row counts sum to
`492`, and the rows `492..499` belong to no band. -/
theorem C5_bands_height_500 :
    (bandParams 500).map (fun p => (p.startRow, p.rowCount))
        = [(0, 41), (41, 41), (82, 41), (123, 41), (164, 41), (205, 41), (246, 41), (287, 41),
           (328, 41), (369, 41), (410, 41), (451, 41)] ∧
      ((bandParams 500).map (fun p => p.rowCount)).sum = 492 ∧
      ∀ row : ℤ, 492 ≤ row → row < 500 →
        ∀ p ∈ bandParams 500, ¬ (p.startRow ≤ row ∧ row < p.startRow + p.rowCount) := by
  refine ⟨by decide, by decide, ?_⟩
  intro row h1 h2 p hp
  have : p.startRow + p.rowCount ≤ 492 := by
    revert p
    decide
  omega

/-- The row loop is left through `break` exactly when the flag is seen set at
the end of one of its rows. -/
theorem rowLoop_aborted_iff (g : Globals) (flag : ℤ → Bool) (n : ℕ) (py : ℤ) :
    (rowLoop g flag n py).2 = true ↔ ∃ k : ℕ, k < n ∧ flag (py + (k : ℤ)) = true := by
  induction n generalizing py with
  | zero => simp [rowLoop]
  | succ n ih =>
    unfold rowLoop
    by_cases hf : flag py = true
    · rw [if_pos hf]
      exact ⟨fun _ => ⟨0, Nat.succ_pos n, by simpa using hf⟩, fun _ => rfl⟩
    · rw [if_neg hf]
      simp only
      rw [ih (py + 1)]
      constructor
      · rintro ⟨k, hk, hfk⟩
        exact ⟨k + 1, Nat.succ_lt_succ hk, by push_cast; rw [← hfk]; congr 1; ring⟩
      · rintro ⟨k, hk, hfk⟩
        cases k with
        | zero => exact absurd (by simpa using hfk) hf
        | succ k =>
          exact ⟨k, Nat.lt_of_succ_lt_succ hk, by rw [← hfk]; push_cast; congr 1; ring⟩

/-- C6 (counterexample): the worker of the band `startRow = 0, rowCount = 2` of a `3 × 24`
image, with the terminate flag already set when it finishes row `0`, leaves its row loop through
`break` after writing row `0` only, and still posts `WM_REPAINT_MAIN`. -/
theorem C6_counterexample :
    (MandelbrotThreadProc { initialGlobals with bmpWidth := 3, bmpHeight := 24 }
        { id := 0, startRow := 0, rowCount := 2 } (fun _ => true)).aborted = true ∧
      ((MandelbrotThreadProc { initialGlobals with bmpWidth := 3, bmpHeight := 24 }
        { id := 0, startRow := 0, rowCount := 2 } (fun _ => true)).writes.map Prod.fst)
          = [0, 1, 2] ∧
      (MandelbrotThreadProc { initialGlobals with bmpWidth := 3, bmpHeight := 24 }
        { id := 0, startRow := 0, rowCount := 2 } (fun _ => true)).posted = [WM_REPAINT_MAIN] ∧
      (MandelbrotThreadProc { initialGlobals with bmpWidth := 3, bmpHeight := 24 }
        { id := 0, startRow := 0, rowCount := 2 } (fun _ => true)).posted ≠ [] := by
  refine ⟨?_, ?_, rfl, ?_⟩
  · simp [MandelbrotThreadProc, rowLoop]
  · simp [MandelbrotThreadProc, rowLoop, rowWrites, pixelWrite, initialGlobals, List.range_succ]
  · simp [MandelbrotThreadProc]

/-- C6 (amended): every run of a band worker posts exactly one `WM_REPAINT_MAIN` after its row
loop, both when the loop ran to the end of the band and when it was left early because the
terminate flag was seen set at the end of a row. -/
theorem C6_worker_always_posts (g : Globals) (params : ThreadParams) (flag : ℤ → Bool) :
    (MandelbrotThreadProc g params flag).posted = [WM_REPAINT_MAIN] ∧
      ((MandelbrotThreadProc g params flag).aborted = true ↔
        ∃ k : ℕ, (k : ℤ) < params.rowCount ∧ flag (params.startRow + (k : ℤ)) = true) := by
  refine ⟨rfl, ?_⟩
  unfold MandelbrotThreadProc
  simp only
  rw [rowLoop_aborted_iff]
  constructor
  · rintro ⟨k, hk, hf⟩
    exact ⟨k, by omega, hf⟩
  · rintro ⟨k, hk, hf⟩
    exact ⟨k, by omega, hf⟩

/-- When the required size exceeds the allocation, `RecreateBitmap` takes a
fresh block of twice the required size. -/
theorem RecreateBitmap_of_gt (g : Globals) (w h : ℤ)
    (hgt : w * h * sizeofInt > g.bmpSizeAllocated) :
    (RecreateBitmap g w h).1 =
      { g with bmpWidth := w, bmpHeight := h,
               bmpSizeAllocated := 2 * (w * h * sizeofInt),
               heapAllocs := g.heapAllocs + 1, bmpBits := g.heapAllocs + 1 } := by
  simp only [RecreateBitmap, reallocBuffer]
  rw [if_pos hgt]

/-- When the allocation suffices, `RecreateBitmap` only records the new size. -/
theorem RecreateBitmap_of_le (g : Globals) (w h : ℤ)
    (hle : w * h * sizeofInt ≤ g.bmpSizeAllocated) :
    (RecreateBitmap g w h).1 = { g with bmpWidth := w, bmpHeight := h } := by
  simp only [RecreateBitmap, reallocBuffer]
  rw [if_neg (not_lt.mpr hle)]

/-- A call allocates exactly when the required size exceeds the allocation. -/
theorem reallocates_iff (g : Globals) (w h : ℤ) :
    reallocates g w h ↔ w * h * sizeofInt > g.bmpSizeAllocated := by
  unfold reallocates
  by_cases hgt : w * h * sizeofInt > g.bmpSizeAllocated
  · rw [RecreateBitmap_of_gt g w h hgt]
    simp [hgt]
  · rw [RecreateBitmap_of_le g w h (not_lt.mp hgt)]
    simp [hgt]

/-- After `RecreateBitmap` the allocation covers the required size. -/
theorem required_le_allocated (g : Globals) (w h : ℤ) (hreq : 0 ≤ w * h * sizeofInt) :
    w * h * sizeofInt ≤ (RecreateBitmap g w h).1.bmpSizeAllocated := by
  by_cases hgt : w * h * sizeofInt > g.bmpSizeAllocated
  · rw [RecreateBitmap_of_gt g w h hgt]
    simp only
    omega
  · rw [RecreateBitmap_of_le g w h (not_lt.mp hgt)]
    exact not_lt.mp hgt

/-- C7: `RecreateBitmap` allocates a new buffer if and only if the required size
`width * height * 4` exceeds `bmpSizeAllocated`; `bmpSizeAllocated` does not decrease; and after
a resize to `w × h`, neither a resize to a size needing no more bytes nor the resize back to
`w × h` allocates: the buffer stays the same block. -/
theorem C7_buffer_capacity (g : Globals) (w h wB hB : ℤ) (hw : 0 ≤ w) (hh : 0 ≤ h)
    (hBA : wB * hB * sizeofInt ≤ w * h * sizeofInt) :
    (reallocates g w h ↔ w * h * sizeofInt > g.bmpSizeAllocated) ∧
      g.bmpSizeAllocated ≤ (RecreateBitmap g w h).1.bmpSizeAllocated ∧
      ¬ reallocates (RecreateBitmap g w h).1 wB hB ∧
      ¬ reallocates (RecreateBitmap (RecreateBitmap g w h).1 wB hB).1 w h ∧
      (RecreateBitmap (RecreateBitmap g w h).1 wB hB).1.bmpBits
        = (RecreateBitmap g w h).1.bmpBits ∧
      (RecreateBitmap (RecreateBitmap (RecreateBitmap g w h).1 wB hB).1 w h).1.bmpBits
        = (RecreateBitmap g w h).1.bmpBits := by
  have hreq : 0 ≤ w * h * sizeofInt := by unfold sizeofInt; positivity
  have hA := required_le_allocated g w h hreq
  have hB1 : wB * hB * sizeofInt ≤ (RecreateBitmap g w h).1.bmpSizeAllocated := le_trans hBA hA
  have e2 := RecreateBitmap_of_le (RecreateBitmap g w h).1 wB hB hB1
  have hA2 : w * h * sizeofInt ≤ (RecreateBitmap (RecreateBitmap g w h).1 wB hB).1.bmpSizeAllocated := by
    rw [e2]; exact hA
  have e3 := RecreateBitmap_of_le (RecreateBitmap (RecreateBitmap g w h).1 wB hB).1 w h hA2
  refine ⟨reallocates_iff g w h, ?_, ?_, ?_, ?_, ?_⟩
  · by_cases hgt : w * h * sizeofInt > g.bmpSizeAllocated
    · rw [RecreateBitmap_of_gt g w h hgt]
      simp only
      omega
    · rw [RecreateBitmap_of_le g w h (not_lt.mp hgt)]
  · rw [reallocates_iff]; exact not_lt.mpr hB1
  · rw [reallocates_iff]; exact not_lt.mpr hA2
  · rw [e2]
  · rw [e3, e2]

/-- Witness of C7 on the initial state: resize to 800 × 600, then 400 × 300, then back. -/
theorem C7_buffer_capacity_witness :
    (reallocates initialGlobals 800 600 ↔ 800 * 600 * sizeofInt > initialGlobals.bmpSizeAllocated) ∧
      initialGlobals.bmpSizeAllocated ≤ (RecreateBitmap initialGlobals 800 600).1.bmpSizeAllocated ∧
      ¬ reallocates (RecreateBitmap initialGlobals 800 600).1 400 300 ∧
      ¬ reallocates (RecreateBitmap (RecreateBitmap initialGlobals 800 600).1 400 300).1 800 600 ∧
      (RecreateBitmap (RecreateBitmap initialGlobals 800 600).1 400 300).1.bmpBits
        = (RecreateBitmap initialGlobals 800 600).1.bmpBits ∧
      (RecreateBitmap (RecreateBitmap (RecreateBitmap initialGlobals 800 600).1 400 300).1
          800 600).1.bmpBits
        = (RecreateBitmap initialGlobals 800 600).1.bmpBits :=
  C7_buffer_capacity initialGlobals 800 600 400 300 (by decide) (by decide) (by decide)

/-- `RecreateBitmap` leaves the viewport centre, extent and mouse state alone. -/
theorem RecreateBitmap_view (g : Globals) (w h : ℤ) :
    (RecreateBitmap g w h).1.xCenter = g.xCenter ∧ (RecreateBitmap g w h).1.yCenter = g.yCenter ∧
      (RecreateBitmap g w h).1.xExtent = g.xExtent ∧
      (RecreateBitmap g w h).1.bmpWidth = w ∧ (RecreateBitmap g w h).1.bmpHeight = h ∧
      (RecreateBitmap g w h).1.prevMouseX = g.prevMouseX ∧
      (RecreateBitmap g w h).1.prevMouseY = g.prevMouseY ∧
      (RecreateBitmap g w h).1.isMouseDown = g.isMouseDown := by
  simp only [RecreateBitmap, reallocBuffer]
  split <;> simp

/-- The value stored by the column loop is the colour of the count of the
point `planePoint g px py`: `planePoint` is the map the renderer uses. -/
theorem pixelWrite_planePoint (g : Globals) (py px : ℤ) :
    pixelWrite g py px =
      (py * g.bmpWidth + px,
        pixelColor g.colorPalette g.colorPaletteSize g.numIterations
          (iterate (planePoint g px py).1 (planePoint g px py).2 g.numIterations)) :=
  rfl

/-- The zoom update leaves the bitmap size alone. -/
theorem zoomView_dims (g : Globals) (px py : ℤ) (factor : ℚ) :
    (zoomView g px py factor).bmpWidth = g.bmpWidth ∧
      (zoomView g px py factor).bmpHeight = g.bmpHeight := by
  simp [zoomView]

/-- The zoom update with all its terms written out: the new extent, and the
new left and bottom bounds `xCenter - xExtent / 2` and
`yCenter - xExtent / aspect / 2`, in terms of the old viewport. -/
theorem zoomView_bounds (g : Globals) (px py : ℤ) (factor : ℚ) (hw : 0 < g.bmpWidth)
    (hh : 0 < g.bmpHeight) :
    (zoomView g px py factor).xExtent = factor * g.xExtent ∧
      (zoomView g px py factor).xCenter - (zoomView g px py factor).xExtent / 2
        = (g.xCenter - g.xExtent / 2)
          + (px : ℚ) * g.xExtent / (g.bmpWidth : ℚ) * (1 - factor) ∧
      (zoomView g px py factor).yCenter
          - (zoomView g px py factor).xExtent / ((g.bmpWidth : ℚ) / (g.bmpHeight : ℚ)) / 2
        = (g.yCenter - g.xExtent / ((g.bmpWidth : ℚ) / (g.bmpHeight : ℚ)) / 2)
          + ((g.bmpHeight - py : ℤ) : ℚ) * g.xExtent / ((g.bmpWidth : ℚ) / (g.bmpHeight : ℚ))
              / (g.bmpHeight : ℚ) * (1 - factor) := by
  have hw0 : (g.bmpWidth : ℚ) ≠ 0 := by exact_mod_cast (ne_of_gt hw)
  have hh0 : (g.bmpHeight : ℚ) ≠ 0 := by exact_mod_cast (ne_of_gt hh)
  refine ⟨?_, ?_, ?_⟩
  · simp only [zoomView, pivotPoint]
    ring
  · simp only [zoomView, pivotPoint]
    field_simp
    ring
  · simp only [zoomView, pivotPoint]
    field_simp
    ring

/-- The anchor property of the zoom update against the renderer's pixel map:
the plane point drawn at column `px`, buffer row `bmpHeight - py` is the same
before and after, and it is the point the handler computes for the pivot. -/
theorem zoomView_anchor (g : Globals) (px py : ℤ) (factor : ℚ) (hw : 0 < g.bmpWidth)
    (hh : 0 < g.bmpHeight) :
    planePoint g px (g.bmpHeight - py) = pivotPoint g px py ∧
      planePoint (zoomView g px py factor) px (g.bmpHeight - py)
        = planePoint g px (g.bmpHeight - py) := by
  have hw0 : (g.bmpWidth : ℚ) ≠ 0 := by exact_mod_cast (ne_of_gt hw)
  have hh0 : (g.bmpHeight : ℚ) ≠ 0 := by exact_mod_cast (ne_of_gt hh)
  obtain ⟨hW, hH⟩ := zoomView_dims g px py factor
  obtain ⟨h1, h2, h3⟩ := zoomView_bounds g px py factor hw hh
  constructor
  · simp only [planePoint, pivotPoint, Prod.mk.injEq]
    constructor
    · field_simp
    · push_cast
      field_simp
      ring
  · simp only [planePoint, hW, hH, Prod.mk.injEq]
    constructor
    · rw [h2, h1]
      field_simp
      ring
    · rw [h3, h1]
      push_cast
      field_simp
      ring

/-- The plane point drawn at a pixel depends only on the viewport and the
bitmap size, which `RecreateBitmap` with an unchanged client rectangle keeps. -/
theorem planePoint_RecreateBitmap (g : Globals) (px py : ℤ) :
    planePoint (RecreateBitmap g g.bmpWidth g.bmpHeight).1 px py = planePoint g px py ∧
      pivotPoint (RecreateBitmap g g.bmpWidth g.bmpHeight).1 px py = pivotPoint g px py := by
  obtain ⟨a, b, c, d, e, -⟩ := RecreateBitmap_view g g.bmpWidth g.bmpHeight
  simp only [planePoint, pivotPoint, a, b, c, d, e, and_self]

/-- C8: for `width > 0`, `height > 0`, `extent > 0` and any factor `> 0`, the zoom of
`WM_MOUSEWHEEL` multiplies `xExtent` by the factor, and the fractal-plane point under the pivot
pixel `(px, py)` is the same before and after.  The point under the pixel is written out from
the viewport, `xmin + px * xExtent / width` and `ymin + (height - py) * xExtent / aspect / height`
with `xmin = xCenter - xExtent / 2` and `ymin = yCenter - xExtent / aspect / 2`; it is the point
the renderer draws at column `px`, buffer row `height - py` (`planePoint`), and the point the
handler computes for the pivot (`pivotPoint`).  The same holds for the handler itself, whose
factor is `wheelFactor delta`. -/
theorem C8_zoom_anchor (g : Globals) (px py : ℤ) (factor : ℚ) (hw : 0 < g.bmpWidth)
    (hh : 0 < g.bmpHeight) (_he : 0 < g.xExtent) (_hf : 0 < factor) :
    (zoomView g px py factor).xExtent = factor * g.xExtent ∧
      ((zoomView g px py factor).xCenter - (zoomView g px py factor).xExtent / 2)
          + (px : ℚ) * (zoomView g px py factor).xExtent / (g.bmpWidth : ℚ)
        = (g.xCenter - g.xExtent / 2) + (px : ℚ) * g.xExtent / (g.bmpWidth : ℚ) ∧
      ((zoomView g px py factor).yCenter
            - (zoomView g px py factor).xExtent / ((g.bmpWidth : ℚ) / (g.bmpHeight : ℚ)) / 2)
          + ((g.bmpHeight - py : ℤ) : ℚ) * (zoomView g px py factor).xExtent
              / ((g.bmpWidth : ℚ) / (g.bmpHeight : ℚ)) / (g.bmpHeight : ℚ)
        = (g.yCenter - g.xExtent / ((g.bmpWidth : ℚ) / (g.bmpHeight : ℚ)) / 2)
          + ((g.bmpHeight - py : ℤ) : ℚ) * g.xExtent
              / ((g.bmpWidth : ℚ) / (g.bmpHeight : ℚ)) / (g.bmpHeight : ℚ) ∧
      (zoomView g px py factor).bmpWidth = g.bmpWidth ∧
      (zoomView g px py factor).bmpHeight = g.bmpHeight ∧
      planePoint (zoomView g px py factor) px (g.bmpHeight - py)
        = planePoint g px (g.bmpHeight - py) ∧
      planePoint g px (g.bmpHeight - py) = pivotPoint g px py ∧
      pivotPoint (zoomView g px py factor) px py = pivotPoint g px py ∧
      ∀ delta : ℤ,
        (wmMouseWheel g px py delta g.bmpWidth g.bmpHeight).xExtent
            = wheelFactor delta * g.xExtent ∧
          planePoint (wmMouseWheel g px py delta g.bmpWidth g.bmpHeight) px (g.bmpHeight - py)
            = planePoint g px (g.bmpHeight - py) ∧
          pivotPoint (wmMouseWheel g px py delta g.bmpWidth g.bmpHeight) px py
            = pivotPoint g px py := by
  have hw0 : (g.bmpWidth : ℚ) ≠ 0 := by exact_mod_cast (ne_of_gt hw)
  have hh0 : (g.bmpHeight : ℚ) ≠ 0 := by exact_mod_cast (ne_of_gt hh)
  have key : ∀ f : ℚ, pivotPoint (zoomView g px py f) px py = pivotPoint g px py := by
    intro f
    obtain ⟨hW, hH⟩ := zoomView_dims g px py f
    obtain ⟨e1, e2⟩ := zoomView_anchor g px py f hw hh
    have e3 := (zoomView_anchor (zoomView g px py f) px py f (by rw [hW]; exact hw)
      (by rw [hH]; exact hh)).1
    rw [hH] at e3
    rw [← e3, e2, e1]
  obtain ⟨hW, hH⟩ := zoomView_dims g px py factor
  obtain ⟨h1, h2, h3⟩ := zoomView_bounds g px py factor hw hh
  obtain ⟨a1, a2⟩ := zoomView_anchor g px py factor hw hh
  refine ⟨h1, ?_, ?_, hW, hH, a2, a1, key factor, ?_⟩
  · rw [h2, h1]
    field_simp
    ring
  · rw [h3, h1]
    field_simp
    ring
  · intro delta
    obtain ⟨hWd, hHd⟩ := zoomView_dims g px py (wheelFactor delta)
    obtain ⟨d1, -, -⟩ := zoomView_bounds g px py (wheelFactor delta) hw hh
    obtain ⟨-, d2⟩ := zoomView_anchor g px py (wheelFactor delta) hw hh
    obtain ⟨r1, r2⟩ := planePoint_RecreateBitmap (zoomView g px py (wheelFactor delta)) px
      (g.bmpHeight - py)
    obtain ⟨-, r3⟩ := planePoint_RecreateBitmap (zoomView g px py (wheelFactor delta)) px py
    obtain ⟨-, -, c, -⟩ := RecreateBitmap_view (zoomView g px py (wheelFactor delta))
      g.bmpWidth g.bmpHeight
    rw [hWd, hHd] at r1 r3
    unfold wmMouseWheel
    exact ⟨by rw [c, d1], by rw [r1, d2], by rw [r3, key]⟩

/-- Witness of C8: zoom by `1 / 2` at pixel `(10, 20)` of a `300 × 200` view of the initial
viewport.  The point under the pixel is `(-19/10, 4/5)` before the zoom, and the renderer draws
the same point at column `10`, buffer row `180` after it; the extent goes from `3` to `3/2`. -/
theorem C8_zoom_anchor_witness :
    planePoint { initialGlobals with bmpWidth := 300, bmpHeight := 200 } 10 (200 - 20)
        = (-19 / 10, 4 / 5) ∧
      planePoint (zoomView { initialGlobals with bmpWidth := 300, bmpHeight := 200 } 10 20 (1 / 2))
          10 (200 - 20)
        = (-19 / 10, 4 / 5) ∧
      (zoomView { initialGlobals with bmpWidth := 300, bmpHeight := 200 } 10 20 (1 / 2)).xExtent
        = (1 / 2) * 3 :=
  ⟨by norm_num [planePoint, initialGlobals],
    ((C8_zoom_anchor { initialGlobals with bmpWidth := 300, bmpHeight := 200 } 10 20 (1 / 2)
      (by decide) (by decide) (by norm_num [initialGlobals]) (by norm_num)).2.2.2.2.2.1).trans
      (by norm_num [planePoint, initialGlobals]),
    (C8_zoom_anchor { initialGlobals with bmpWidth := 300, bmpHeight := 200 } 10 20 (1 / 2)
      (by decide) (by decide) (by norm_num [initialGlobals]) (by norm_num)).1⟩

/-- The state after `case WM_MOUSEMOVE` with the button held and the client
rectangle unchanged. -/
theorem wmMouseMove_down (g : Globals) (x y : ℤ) (hdown : g.isMouseDown = true) :
    (wmMouseMove g x y g.bmpWidth g.bmpHeight).xCenter
        = g.xCenter + g.xExtent / (g.bmpWidth : ℚ) * ((g.prevMouseX - x : ℤ) : ℚ) ∧
      (wmMouseMove g x y g.bmpWidth g.bmpHeight).yCenter
        = g.yCenter - g.xExtent / ((g.bmpWidth : ℚ) / (g.bmpHeight : ℚ)) / (g.bmpHeight : ℚ)
            * ((g.prevMouseY - y : ℤ) : ℚ) ∧
      (wmMouseMove g x y g.bmpWidth g.bmpHeight).xExtent = g.xExtent ∧
      (wmMouseMove g x y g.bmpWidth g.bmpHeight).bmpWidth = g.bmpWidth ∧
      (wmMouseMove g x y g.bmpWidth g.bmpHeight).bmpHeight = g.bmpHeight ∧
      (wmMouseMove g x y g.bmpWidth g.bmpHeight).prevMouseX = x ∧
      (wmMouseMove g x y g.bmpWidth g.bmpHeight).prevMouseY = y ∧
      (wmMouseMove g x y g.bmpWidth g.bmpHeight).isMouseDown = true := by
  obtain ⟨a, b, c, d, e, f, i, j⟩ := RecreateBitmap_view (panView g x y) g.bmpWidth g.bmpHeight
  simp only [wmMouseMove, hdown, if_true, a, b, c, d, e, f, i, j]
  simp [panView, hdown]

/-- C9: with `width > 0`, `height > 0`, the button held and the window size unchanged, a drag
by `(dx, dy)` moves `xCenter` by `dx * (xExtent / width)` and `yCenter` by
`dy * (xExtent / aspect / height)` the other way, and the drag back by `(-dx, -dy)` restores
`xCenter` and `yCenter`. -/
theorem C9_pan_round_trip (g : Globals) (dx dy : ℤ) (_hw : 0 < g.bmpWidth) (_hh : 0 < g.bmpHeight)
    (hdown : g.isMouseDown = true) :
    (wmMouseMove g (g.prevMouseX - dx) (g.prevMouseY - dy) g.bmpWidth g.bmpHeight).xCenter
        = g.xCenter + (dx : ℚ) * (g.xExtent / (g.bmpWidth : ℚ)) ∧
      (wmMouseMove g (g.prevMouseX - dx) (g.prevMouseY - dy) g.bmpWidth g.bmpHeight).yCenter
        = g.yCenter
          - (dy : ℚ) * (g.xExtent / ((g.bmpWidth : ℚ) / (g.bmpHeight : ℚ)) / (g.bmpHeight : ℚ)) ∧
      (wmMouseMove (wmMouseMove g (g.prevMouseX - dx) (g.prevMouseY - dy) g.bmpWidth g.bmpHeight)
          (g.prevMouseX - dx + dx) (g.prevMouseY - dy + dy) g.bmpWidth g.bmpHeight).xCenter
        = g.xCenter ∧
      (wmMouseMove (wmMouseMove g (g.prevMouseX - dx) (g.prevMouseY - dy) g.bmpWidth g.bmpHeight)
          (g.prevMouseX - dx + dx) (g.prevMouseY - dy + dy) g.bmpWidth g.bmpHeight).yCenter
        = g.yCenter := by
  obtain ⟨a, b, c, d, e, f, i, j⟩ :=
    wmMouseMove_down g (g.prevMouseX - dx) (g.prevMouseY - dy) hdown
  have k := wmMouseMove_down
    (wmMouseMove g (g.prevMouseX - dx) (g.prevMouseY - dy) g.bmpWidth g.bmpHeight)
    (g.prevMouseX - dx + dx) (g.prevMouseY - dy + dy) j
  rw [d, e] at k
  obtain ⟨a1, b1, -⟩ := k
  refine ⟨?_, ?_, ?_, ?_⟩
  · rw [a]; push_cast; ring
  · rw [b]; push_cast; ring
  · rw [a1, a, c, f]; push_cast; ring
  · rw [b1, b, c, i]; push_cast; ring

/-- Witness of C9: a drag by `(30, -7)` and back on a `300 × 200` view with the button held. -/
theorem C9_pan_round_trip_witness :
    (wmMouseMove
        (wmMouseMove
          { initialGlobals with bmpWidth := 300, bmpHeight := 200, isMouseDown := true }
          (0 - 30) (0 - (-7)) 300 200)
        (0 - 30 + 30) (0 - (-7) + (-7)) 300 200).xCenter = -1 / 2 ∧
      (wmMouseMove
        (wmMouseMove
          { initialGlobals with bmpWidth := 300, bmpHeight := 200, isMouseDown := true }
          (0 - 30) (0 - (-7)) 300 200)
        (0 - 30 + 30) (0 - (-7) + (-7)) 300 200).yCenter = 0 :=
  ⟨(C9_pan_round_trip
      { initialGlobals with bmpWidth := 300, bmpHeight := 200, isMouseDown := true } 30 (-7)
      (by decide) (by decide) rfl).2.2.1,
    (C9_pan_round_trip
      { initialGlobals with bmpWidth := 300, bmpHeight := 200, isMouseDown := true } 30 (-7)
      (by decide) (by decide) rfl).2.2.2⟩

/-- `RecreateBitmap` records the client rectangle as the bitmap size. -/
theorem RecreateBitmap_dims (g : Globals) (w h : ℤ) :
    (RecreateBitmap g w h).1.bmpWidth = w ∧ (RecreateBitmap g w h).1.bmpHeight = h := by
  simp only [RecreateBitmap, reallocBuffer]
  split <;> simp

/-- Every write of the column loop of row `py` goes to `py * bmpWidth + col`
with `0 ≤ col < bmpWidth`. -/
theorem mem_rowWrites (g : Globals) (py : ℤ) (e : ℤ × ℤ) (he : e ∈ rowWrites g py) :
    ∃ col : ℤ, 0 ≤ col ∧ col < g.bmpWidth ∧ e.1 = py * g.bmpWidth + col := by
  unfold rowWrites at he
  rw [List.mem_map] at he
  obtain ⟨px, hpx, rfl⟩ := he
  rw [List.mem_range] at hpx
  refine ⟨(px : ℤ), by omega, by omega, ?_⟩
  simp [pixelWrite]

/-- Every write of the row loop belongs to one of the `n` rows from `py` on. -/
theorem mem_rowLoop (g : Globals) (flag : ℤ → Bool) (n : ℕ) (py : ℤ) (e : ℤ × ℤ)
    (he : e ∈ (rowLoop g flag n py).1) :
    ∃ k : ℕ, k < n ∧ e ∈ rowWrites g (py + (k : ℤ)) := by
  induction n generalizing py with
  | zero => simp [rowLoop] at he
  | succ n ih =>
    unfold rowLoop at he
    by_cases hf : flag py = true
    · rw [if_pos hf] at he
      exact ⟨0, Nat.succ_pos n, by simpa using he⟩
    · rw [if_neg hf] at he
      simp only [List.mem_append] at he
      rcases he with he | he
      · exact ⟨0, Nat.succ_pos n, by simpa using he⟩
      · obtain ⟨k, hk, hmem⟩ := ih (py + 1) he
        refine ⟨k + 1, Nat.succ_lt_succ hk, ?_⟩
        have e1 : py + ((k + 1 : ℕ) : ℤ) = py + 1 + (k : ℤ) := by push_cast; ring
        rw [e1]; exact hmem

/-- Every write of a band worker goes to `row * bmpWidth + col` for a row of
its band and a column of the image. -/
theorem mem_worker_writes (g : Globals) (p : ThreadParams) (flag : ℤ → Bool) (e : ℤ × ℤ)
    (he : e ∈ (MandelbrotThreadProc g p flag).writes) :
    ∃ row col : ℤ, p.startRow ≤ row ∧ row < p.startRow + p.rowCount ∧
      0 ≤ col ∧ col < g.bmpWidth ∧ e.1 = row * g.bmpWidth + col := by
  unfold MandelbrotThreadProc at he
  simp only at he
  obtain ⟨k, hk, hmem⟩ := mem_rowLoop g flag _ _ e he
  obtain ⟨col, h0, h1, h2⟩ := mem_rowWrites g _ e hmem
  exact ⟨p.startRow + (k : ℤ), col, by omega, by omega, h0, h1, h2⟩

/-- The `k`-th thread started by the set-up loop. -/
theorem mem_bandLoop (rowInc : ℤ) (n : ℕ) (i row : ℤ) (p : ThreadParams)
    (hp : p ∈ bandLoop rowInc n i row) :
    ∃ k : ℕ, k < n ∧ p.id = i + (k : ℤ) ∧ p.startRow = row + (k : ℤ) * rowInc ∧
      p.rowCount = rowInc := by
  induction n generalizing i row with
  | zero => simp [bandLoop] at hp
  | succ n ih =>
    unfold bandLoop at hp
    rw [List.mem_cons] at hp
    rcases hp with rfl | hp
    · exact ⟨0, Nat.succ_pos n, by simp, by simp, rfl⟩
    · obtain ⟨k, hk, h1, h2, h3⟩ := ih (i + 1) (row + rowInc) hp
      refine ⟨k + 1, Nat.succ_lt_succ hk, ?_, ?_, h3⟩
      · rw [h1]; push_cast; ring
      · rw [h2]; push_cast; ring

/-- The bands handed out for `bmpHeight` rows: band `k < 12` starts at
`k * (bmpHeight / 12)` and has `bmpHeight / 12` rows. -/
theorem mem_bandParams (bmpHeight : ℤ) (hh : 0 ≤ bmpHeight) (p : ThreadParams)
    (hp : p ∈ bandParams bmpHeight) :
    ∃ k : ℕ, k < 12 ∧ p.id = (k : ℤ) ∧ p.startRow = (k : ℤ) * (bmpHeight / 12) ∧
      p.rowCount = bmpHeight / 12 := by
  unfold bandParams at hp
  obtain ⟨k, hk, h1, h2, h3⟩ := mem_bandLoop _ _ _ _ p hp
  have e : Int.tdiv bmpHeight ((NUM_THREADS : ℕ) : ℤ) = bmpHeight / 12 := by
    rw [Int.tdiv_eq_ediv hh (by simp [NUM_THREADS])]
    simp [NUM_THREADS]
  rw [e] at h2 h3
  exact ⟨k, hk, by simpa using h1, by simpa using h2, h3⟩

/-- C10: for `width ≥ 0` and `height ≥ 0`, with the bands produced by `RecreateBitmap`, every
write of a band worker goes to a flat offset `row * width + col` with
`startRow ≤ row < startRow + rowCount` and `0 ≤ col < width`; every such offset lies in
`[0, width * height)`; and workers of two different bands never write the same offset. -/
theorem C10_band_writes (g : Globals) (w h : ℤ) (hw : 0 ≤ w) (hh : 0 ≤ h) :
    (∀ p ∈ (RecreateBitmap g w h).2, ∀ (flag : ℤ → Bool),
      ∀ e ∈ (MandelbrotThreadProc (RecreateBitmap g w h).1 p flag).writes,
        ∃ row col : ℤ, p.startRow ≤ row ∧ row < p.startRow + p.rowCount ∧
          0 ≤ col ∧ col < w ∧ e.1 = row * w + col) ∧
    (∀ p ∈ (RecreateBitmap g w h).2, ∀ row col : ℤ,
      p.startRow ≤ row → row < p.startRow + p.rowCount → 0 ≤ col → col < w →
        0 ≤ row * w + col ∧ row * w + col < w * h) ∧
    (∀ p ∈ (RecreateBitmap g w h).2, ∀ q ∈ (RecreateBitmap g w h).2, p.id ≠ q.id →
      ∀ (flagp flagq : ℤ → Bool),
      ∀ e ∈ (MandelbrotThreadProc (RecreateBitmap g w h).1 p flagp).writes,
      ∀ f ∈ (MandelbrotThreadProc (RecreateBitmap g w h).1 q flagq).writes, e.1 ≠ f.1) := by
  obtain ⟨hW, hH⟩ := RecreateBitmap_dims g w h
  have hbands : (RecreateBitmap g w h).2 = bandParams h := by
    show bandParams (RecreateBitmap g w h).1.bmpHeight = bandParams h
    rw [hH]
  have hdiv : 12 * (h / 12) ≤ h := Int.mul_ediv_self_le (by norm_num)
  have hinc : 0 ≤ h / 12 := Int.ediv_nonneg hh (by norm_num)
  refine ⟨?_, ?_, ?_⟩
  · intro p hp flag e he
    obtain ⟨row, col, r0, r1, c0, c1, hoff⟩ := mem_worker_writes _ p flag e he
    rw [hW] at c1 hoff
    exact ⟨row, col, r0, r1, c0, c1, hoff⟩
  · intro p hp row col r0 r1 c0 c1
    rw [hbands] at hp
    obtain ⟨k, hk, -, hs, hc⟩ := mem_bandParams h hh p hp
    constructor
    · have : 0 ≤ row := by
        have : 0 ≤ (k : ℤ) * (h / 12) := by positivity
        omega
      positivity
    · have hrow : row + 1 ≤ h := by
        have hk1 : ((k : ℤ) + 1) * (h / 12) ≤ 12 * (h / 12) :=
          mul_le_mul_of_nonneg_right (by omega) hinc
        have : row < ((k : ℤ) + 1) * (h / 12) := by rw [hs, hc] at r1; linarith
        omega
      have : (row + 1) * w ≤ h * w := mul_le_mul_of_nonneg_right hrow hw
      linarith
  · intro p hp q hq hne flagp flagq e he f hf heq
    rw [hbands] at hp hq
    obtain ⟨k, -, hkid, hs, hc⟩ := mem_bandParams h hh p hp
    obtain ⟨l, -, hlid, hs', hc'⟩ := mem_bandParams h hh q hq
    obtain ⟨row, col, r0, r1, c0, c1, hoff⟩ := mem_worker_writes _ p flagp e he
    obtain ⟨row', col', r0', r1', c0', c1', hoff'⟩ := mem_worker_writes _ q flagq f hf
    rw [hW] at c1 hoff c1' hoff'
    rw [hs] at r0
    rw [hs, hc] at r1
    rw [hs'] at r0'
    rw [hs', hc'] at r1'
    have hrow : row = row' := by
      have hE : row * w + col = row' * w + col' := by rw [← hoff, ← hoff']; exact heq
      rcases lt_trichotomy row row' with hlt | heq' | hgt
      · have : (row + 1) * w ≤ row' * w := mul_le_mul_of_nonneg_right (by omega) hw
        nlinarith
      · exact heq'
      · have : (row' + 1) * w ≤ row * w := mul_le_mul_of_nonneg_right (by omega) hw
        nlinarith
    subst hrow
    have hkl : (k : ℤ) ≠ (l : ℤ) := by rw [← hkid, ← hlid]; exact hne
    rcases lt_or_gt_of_ne hkl with hlt | hgt
    · have : ((k : ℤ) + 1) * (h / 12) ≤ (l : ℤ) * (h / 12) :=
        mul_le_mul_of_nonneg_right (by omega) hinc
      linarith
    · have : ((l : ℤ) + 1) * (h / 12) ≤ (k : ℤ) * (h / 12) :=
        mul_le_mul_of_nonneg_right (by omega) hinc
      linarith

/-- Witness of C10: a `3 × 24` image on the initial state.  The twelve bands have two rows
each; the worker of band `1` writes the offsets `6..11`, and the statement of C10 holds. -/
theorem C10_band_writes_witness :
    ((RecreateBitmap initialGlobals 3 24).2.map (fun p => (p.id, p.startRow, p.rowCount))
        = [(0, 0, 2), (1, 2, 2), (2, 4, 2), (3, 6, 2), (4, 8, 2), (5, 10, 2), (6, 12, 2),
           (7, 14, 2), (8, 16, 2), (9, 18, 2), (10, 20, 2), (11, 22, 2)]) ∧
    ((MandelbrotThreadProc (RecreateBitmap initialGlobals 3 24).1
        { id := 1, startRow := 2, rowCount := 2 } (fun _ => false)).writes.map Prod.fst
        = [6, 7, 8, 9, 10, 11]) ∧
    (∀ p ∈ (RecreateBitmap initialGlobals 3 24).2, ∀ (flag : ℤ → Bool),
      ∀ e ∈ (MandelbrotThreadProc (RecreateBitmap initialGlobals 3 24).1 p flag).writes,
        ∃ row col : ℤ, p.startRow ≤ row ∧ row < p.startRow + p.rowCount ∧
          0 ≤ col ∧ col < 3 ∧ e.1 = row * 3 + col) ∧
    (∀ p ∈ (RecreateBitmap initialGlobals 3 24).2, ∀ row col : ℤ,
      p.startRow ≤ row → row < p.startRow + p.rowCount → 0 ≤ col → col < 3 →
        0 ≤ row * 3 + col ∧ row * 3 + col < 3 * 24) ∧
    (∀ p ∈ (RecreateBitmap initialGlobals 3 24).2, ∀ q ∈ (RecreateBitmap initialGlobals 3 24).2,
      p.id ≠ q.id → ∀ (flagp flagq : ℤ → Bool),
      ∀ e ∈ (MandelbrotThreadProc (RecreateBitmap initialGlobals 3 24).1 p flagp).writes,
      ∀ f ∈ (MandelbrotThreadProc (RecreateBitmap initialGlobals 3 24).1 q flagq).writes,
        e.1 ≠ f.1) :=
  ⟨by decide,
    by simp [MandelbrotThreadProc, rowLoop, rowWrites, pixelWrite, RecreateBitmap, reallocBuffer,
      initialGlobals, sizeofInt, List.range_succ],
    C10_band_writes initialGlobals 3 24 (by decide) (by decide)⟩

end Mandelbrot
